import Mathlib

/-!
Shallow embedding of the menu-detection core of the missa-kala repository
(`src/background.js`, first service-worker variant): JS-style string
primitives, the address-like line filter (`isAddressLikeLine`), the
keyword scanner (`searchForFish`), the day/date pattern generators
(`getDatePatterns`, `getDatePatternsForWindow`), the today-section
locator (`extractTodaySection` with its four strategies) and the
detection orchestrator (`findFishInText`).

Strings are modelled as `List Char` (`Str`).  JS regular expressions used
by the source are embedded as explicit decidable matchers: `\b` word
boundaries follow the JS definition (word chars are `[A-Za-z0-9_]`, so
non-ASCII letters such as `ä` are not word characters), and a
`regex.test` call is embedded as the existence of a match position,
which agrees with backtracking semantics for the anchor-free patterns
the source uses.  `toLowerCase` is embedded for the character repertoire
appearing in the source's pattern tables (ASCII plus `Ä Ö Å`).
-/

set_option maxRecDepth 100000

abbrev Str := List Char

/-- JS whitespace class `\s` restricted to the characters relevant here
(space, tab, LF, CR, VT, FF, NBSP); used by `trim` and `replace(/\s+/g,' ')`. -/
def jsIsSpace (c : Char) : Bool :=
  c = ' ' || c = '\t' || c = '\n' || c = '\r' || c = '\u000b' || c = '\u000c' || c = ' '

/-- JS `String.prototype.trim`. -/
def trimL (s : Str) : Str :=
  ((s.dropWhile jsIsSpace).reverse.dropWhile jsIsSpace).reverse

/-- Helper for `collapseWs`: `prevSpace` records whether the previous
character was whitespace already emitted as a single `' '`. -/
def collapseAux : Bool → Str → Str
  | _, [] => []
  | prevSpace, c :: t =>
    if jsIsSpace c then
      if prevSpace then collapseAux true t else ' ' :: collapseAux true t
    else c :: collapseAux false t

/-- JS `replace(/\s+/g, ' ')`: every maximal whitespace run becomes one space. -/
def collapseWs (s : Str) : Str := collapseAux false s

/-- JS `toLowerCase` on one character, for the repertoire used by the source
(ASCII letters plus the Finnish/Swedish capitals appearing in pattern
tables).  Other characters are unchanged. -/
def jsToLower (c : Char) : Char :=
  match c with
  | 'A' => 'a' | 'B' => 'b' | 'C' => 'c' | 'D' => 'd' | 'E' => 'e' | 'F' => 'f'
  | 'G' => 'g' | 'H' => 'h' | 'I' => 'i' | 'J' => 'j' | 'K' => 'k' | 'L' => 'l'
  | 'M' => 'm' | 'N' => 'n' | 'O' => 'o' | 'P' => 'p' | 'Q' => 'q' | 'R' => 'r'
  | 'S' => 's' | 'T' => 't' | 'U' => 'u' | 'V' => 'v' | 'W' => 'w' | 'X' => 'x'
  | 'Y' => 'y' | 'Z' => 'z' | 'Ä' => 'ä' | 'Ö' => 'ö' | 'Å' => 'å'
  | c => c

/-- JS `String.prototype.toLowerCase`. -/
def lowerL (s : Str) : Str := s.map jsToLower

/-- `leadsWith needle hay`: `needle` occurs at the start of `hay`. -/
def leadsWith : Str → Str → Bool
  | [], _ => true
  | _ :: _, [] => false
  | a :: as, b :: bs => if a = b then leadsWith as bs else false

/-- Position of the first occurrence of `needle`, scanning `hay` left to
right (JS `indexOf`, which returns `0` for the empty needle). -/
def indexOfSubAux (needle : Str) : Str → Option Nat
  | [] => if needle = [] then some 0 else none
  | c :: t =>
    if leadsWith needle (c :: t) then some 0
    else (indexOfSubAux needle t).map (· + 1)

/-- JS `hay.indexOf(needle)` (as an `Option` instead of `-1`). -/
def indexOfSub (hay needle : Str) : Option Nat := indexOfSubAux needle hay

/-- JS `hay.includes(needle)`. -/
def containsSub (hay needle : Str) : Bool := (indexOfSub hay needle).isSome

/-- JS `text.split(sep)` for a one-character separator. -/
def splitOnChar (sep : Char) : Str → List Str
  | [] => [[]]
  | c :: t =>
    let rest := splitOnChar sep t
    if c = sep then [] :: rest
    else
      match rest with
      | [] => [[c]]
      | r :: rs => (c :: r) :: rs

/-- JS `lines.join('\n')`. -/
def joinLines : List Str → Str
  | [] => []
  | [l] => l
  | l :: rest => l ++ '\n' :: joinLines rest

/-- JS array `includes` / `Set.has` on strings. -/
def memb (x : Str) (l : List Str) : Bool := decide (x ∈ l)

/-- Character at index `i`, if any. -/
def charAt (s : Str) (i : Nat) : Option Char := (s.drop i).head?

/-- JS regex word character class `\w` = `[A-Za-z0-9_]`. -/
def isJsWordChar (c : Char) : Bool :=
  ('a' ≤ c && c ≤ 'z') || ('A' ≤ c && c ≤ 'Z') || ('0' ≤ c && c ≤ '9') || c = '_'

/-- Is the character at index `i` a word character (out of range counts as no)? -/
def wordCharAt (s : Str) (i : Nat) : Bool :=
  match charAt s i with
  | some c => isJsWordChar c
  | none => false

/-- JS regex `\b`: holds between positions `i-1` and `i` iff exactly one
side is a word character (positions outside the string are non-word). -/
def boundaryAt (s : Str) (i : Nat) : Bool :=
  (if i = 0 then false else wordCharAt s (i - 1)) != wordCharAt s i

/-- Match of the source's short-day-pattern regex `\b<pat>\.?\b` at
position `i` of `s` (the optional dot follows JS backtracking). -/
def matchShortAt (pat s : Str) (i : Nat) : Bool :=
  boundaryAt s i && leadsWith pat (s.drop i) &&
    (boundaryAt s (i + pat.length) ||
      (charAt s (i + pat.length) = some '.' && boundaryAt s (i + pat.length + 1)))

/-- Match of the plain word-bounded regex `\b<pat>\b` at position `i` of `s`. -/
def matchLongAt (pat s : Str) (i : Nat) : Bool :=
  boundaryAt s i && leadsWith pat (s.drop i) && boundaryAt s (i + pat.length)

/-- `regex.test`: does a match exist at some position `0..n`? -/
def anyIndexUpTo (test : Nat → Bool) (n : Nat) : Bool :=
  (List.range (n + 1)).any test

/-- First position in `[start, start+count)` where `test` holds
(`regex.exec(...).index`). -/
def firstMatchIdx (test : Nat → Bool) : Nat → Nat → Option Nat
  | 0, _ => none
  | count + 1, i => if test i then some i else firstMatchIdx test count (i + 1)

/-- `n` digit characters starting at index `i` of `s`. -/
def digitsAt (s : Str) (i n : Nat) : Bool :=
  let seg := (s.drop i).take n
  seg.length == n && seg.all Char.isDigit

/-- `src/background.js` `isAddressLikeLine`: Finnish street-token regex
`/(katu|tie|kuja|polku|bulevardi|väylä)/` — an unanchored substring test. -/
def finnishStreetToks : List Str :=
  (["katu", "tie", "kuja", "polku", "bulevardi", "väylä"]).map String.toList

/-- Alternatives of the other-street regex
`/\b(gatan|street|st\.|road|rd\.|avenue|ave\.|boulevard|blvd\.)\b/`. -/
def otherStreetToks : List Str :=
  (["gatan", "street", "st.", "road", "rd.", "avenue", "ave.", "boulevard", "blvd."]).map
    String.toList

/-- Test of a word-bounded alternation regex `\b(a1|a2|...)\b`. -/
def streetAltTest (alts : List Str) (s : Str) : Bool :=
  anyIndexUpTo
    (fun i =>
      boundaryAt s i &&
        alts.any (fun a => leadsWith a (s.drop i) && boundaryAt s (i + a.length)))
    s.length

/-- Test of `/\b\d{1,4}[a-z]?\b/` (house-number-like token). -/
def hasNumberTok (s : Str) : Bool :=
  anyIndexUpTo
    (fun i =>
      boundaryAt s i &&
        ([1, 2, 3, 4].any fun n =>
          digitsAt s i n &&
            (boundaryAt s (i + n) ||
              (match charAt s (i + n) with
               | some c => ('a' ≤ c && c ≤ 'z') && boundaryAt s (i + n + 1)
               | none => false))))
    s.length

/-- Test of `/\b\d{5}\b/` (postal-code-like token). -/
def hasPostalTok (s : Str) : Bool :=
  anyIndexUpTo (fun i => boundaryAt s i && digitsAt s i 5 && boundaryAt s (i + 5)) s.length

/-- `src/background.js` lines 572-580: `isAddressLikeLine(line)`. -/
def isAddressLikeLine (line : Str) : Bool :=
  let lowerLine := lowerL line
  let hasFinnishStreet := finnishStreetToks.any (fun t => containsSub lowerLine t)
  let hasOtherStreet := streetAltTest otherStreetToks lowerLine
  let hasNumber := hasNumberTok lowerLine
  let hasPostalCode := hasPostalTok lowerLine
  ((hasFinnishStreet || hasOtherStreet) && hasNumber) || hasPostalCode

/-- `config.js` `FISH_KEYWORDS` (English, Finnish, generic). -/
def FISH_KEYWORDS : List Str :=
  (["fish", "salmon", "cod", "tuna", "trout", "halibut", "haddock", "mackerel",
    "sea bass", "sea bream", "sardine", "herring", "tilapia", "catfish",
    "kala", "lohi", "turska", "tonnikala", "taimen", "ahven", "kuha", "siika",
    "silakka", "silakkapihvi", "kalaruoka", "kalaviikko",
    "seafood", "fillet", "grilled fish", "baked fish", "fried fish"]).map String.toList

/-- `src/background.js` `ENGLISH_FISH_KEYWORDS`. -/
def ENGLISH_FISH_KEYWORDS : List Str :=
  (["fish", "salmon", "cod", "tuna", "trout", "halibut", "haddock", "mackerel",
    "sea bass", "sea bream", "sardine", "herring", "tilapia", "catfish",
    "seafood", "fillet", "grilled fish", "baked fish", "fried fish"]).map String.toList

/-- `src/background.js` `FINNISH_FISH_KEYWORDS`. -/
def FINNISH_FISH_KEYWORDS : List Str :=
  (["kala", "lohi", "turska", "tonnikala", "taimen", "ahven", "kuha", "siika",
    "silakka", "silakkapihvi", "kalaruoka", "kalaviikko"]).map String.toList

/-- `containsKeyword(line, keywords)`: some keyword occurs in the line. -/
def containsKeyword (line : Str) (keywords : List Str) : Bool :=
  keywords.any fun keyword => containsSub line keyword

/-- `detectLineLanguage(lowerLine)` classifying a lowercased line. -/
def detectLineLanguage (en fi : List Str) (lowerLine : Str) : String :=
  if containsKeyword lowerLine en then "en"
  else if containsKeyword lowerLine fi then "fi"
  else "unknown"

/-- The `foundKeywords` filter of `searchForFish`:
`FISH_KEYWORDS.filter(k => lowerLine.includes(k.toLowerCase()))`. -/
def matchingKeywords (kws : List Str) (lowerLine : Str) : List Str :=
  kws.filter fun keyword => containsSub lowerLine (lowerL keyword)

/-- The `cleanLine` normalization of `searchForFish`: collapse whitespace
runs, truncate to 200 characters. -/
def cleanedLine (trimmedLine : Str) : Str := (collapseWs trimmedLine).take 200

/-- Mutable accumulators of `searchForFish` (`fishItems`, `englishItems`,
`finnishItems`). -/
structure ScanState where
  fishItems : List Str
  englishItems : List Str
  finnishItems : List Str
deriving DecidableEq

/-- One `searchForFish` body step once a keyword matched: add the cleaned
line unless it is a duplicate, recording its detected language. -/
def pushItem (en fi : List Str) (lowerLine clean : Str) (st : ScanState) : ScanState :=
  if memb clean st.fishItems then st
  else
    { fishItems := st.fishItems ++ [clean]
      englishItems :=
        if detectLineLanguage en fi lowerLine = "en" then st.englishItems ++ [clean]
        else st.englishItems
      finnishItems :=
        if detectLineLanguage en fi lowerLine = "fi" then st.finnishItems ++ [clean]
        else st.finnishItems }

/-- The line loop of `searchForFish` (`src/background.js` lines 436-468):
skip short and address-like lines, push keyword matches, stop once five
items were collected. -/
def scanLines (kws en fi : List Str) : List Str → ScanState → ScanState
  | [], st => st
  | line :: rest, st =>
    let trimmedLine := trimL line
    if trimmedLine.length < 5 then scanLines kws en fi rest st
    else if isAddressLikeLine trimmedLine then scanLines kws en fi rest st
    else if 0 < (matchingKeywords kws (lowerL trimmedLine)).length then
      let st' := pushItem en fi (lowerL trimmedLine) (cleanedLine trimmedLine) st
      if 5 ≤ st'.fishItems.length then st' else scanLines kws en fi rest st'
    else scanLines kws en fi rest st

/-- `searchForFish` generalized over the keyword tables it reads
(`FISH_KEYWORDS`, `ENGLISH_FISH_KEYWORDS`, `FINNISH_FISH_KEYWORDS`):
returns the English-language matches when any exist, else all matches. -/
def searchForFishWith (kws en fi : List Str) (text : Str) : List Str :=
  let st := scanLines kws en fi (splitOnChar '\n' text) ⟨[], [], []⟩
  if 0 < st.englishItems.length then st.englishItems else st.fishItems

/-- `src/background.js` lines 430-475: `searchForFish(text)`. -/
def searchForFish (text : Str) : List Str :=
  searchForFishWith FISH_KEYWORDS ENGLISH_FISH_KEYWORDS FINNISH_FISH_KEYWORDS text

/-- Calendar date (`{year, month, day}` of a JS `Date`, month 1-12). -/
structure DateT where
  year : Nat
  month : Nat
  day : Nat
deriving DecidableEq

/-- `dayIdentity`: day-of-week `0..6` (0 = Sunday) plus calendar date.
The source reads both from `new Date()`; the embedding passes them in,
as §6 of the specification does. -/
structure DayIdentity where
  dayOfWeek : Nat
  date : DateT
deriving DecidableEq

/-- Decimal digit character for `r = n % 10`. -/
def digitChar (r : Nat) : Char :=
  match r with
  | 0 => '0' | 1 => '1' | 2 => '2' | 3 => '3' | 4 => '4'
  | 5 => '5' | 6 => '6' | 7 => '7' | 8 => '8' | _ => '9'

/-- Fuel-driven decimal printer (most significant digit first once done). -/
def natStrGo : Nat → Nat → Str → Str
  | 0, _, acc => acc
  | fuel + 1, n, acc =>
    if n = 0 then acc else natStrGo fuel (n / 10) (digitChar (n % 10) :: acc)

/-- JS template `${n}` for a non-negative number: decimal representation. -/
def natStr (n : Nat) : Str :=
  if n = 0 then ['0'] else natStrGo n n []

/-- JS `String(n).padStart(2, '0')`. -/
def pad2 (n : Nat) : Str :=
  let s := natStr n
  if s.length < 2 then '0' :: s else s

/-- `src/background.js` lines 393-416: `getDatePatterns(date)` — the eleven
textual formats for one calendar date, in source order. -/
def getDatePatterns (date : DateT) : List Str :=
  [natStr date.year ++ ('-' :: pad2 date.month) ++ ('-' :: pad2 date.day),
   pad2 date.day ++ ('.' :: pad2 date.month) ++ ('.' :: natStr date.year),
   natStr date.day ++ ('.' :: natStr date.month) ++ ('.' :: natStr date.year),
   pad2 date.day ++ ('/' :: pad2 date.month) ++ ('/' :: natStr date.year),
   natStr date.day ++ ('/' :: natStr date.month) ++ ('/' :: natStr date.year),
   pad2 date.day ++ ('.' :: pad2 date.month),
   natStr date.day ++ ('.' :: natStr date.month),
   pad2 date.day ++ ('.' :: pad2 date.month) ++ ['.'],
   natStr date.day ++ ('.' :: natStr date.month) ++ ['.'],
   pad2 date.day ++ ('/' :: pad2 date.month),
   natStr date.day ++ ('/' :: natStr date.month)]

/-- Gregorian leap year. -/
def isLeapYear (y : Nat) : Bool :=
  (y % 4 == 0 && y % 100 != 0) || y % 400 == 0

/-- Days in a month (month 1-12). -/
def daysInMonth (y m : Nat) : Nat :=
  if m = 2 then (if isLeapYear y then 29 else 28)
  else if m = 4 ∨ m = 6 ∨ m = 9 ∨ m = 11 then 30
  else 31

/-- Calendar successor (the normalization JS `setDate(getDate()+1)` performs). -/
def nextDay (d : DateT) : DateT :=
  if d.day < daysInMonth d.year d.month then ⟨d.year, d.month, d.day + 1⟩
  else if d.month < 12 then ⟨d.year, d.month + 1, 1⟩
  else ⟨d.year + 1, 1, 1⟩

/-- Calendar predecessor (JS `setDate(getDate()-1)` normalization). -/
def prevDay (d : DateT) : DateT :=
  if 1 < d.day then ⟨d.year, d.month, d.day - 1⟩
  else if 1 < d.month then ⟨d.year, d.month - 1, daysInMonth d.year (d.month - 1)⟩
  else ⟨d.year - 1, 12, 31⟩

/-- JS `d.setDate(date.getDate() + offset)` for a small signed offset. -/
def shiftDays (d : DateT) (off : Int) : DateT :=
  if off < 0 then prevDay^[off.natAbs] d else nextDay^[off.natAbs] d

/-- The loop offsets `-windowDays .. windowDays` of `getDatePatternsForWindow`. -/
def windowOffsets (windowDays : Nat) : List Int :=
  (List.range (2 * windowDays + 1)).map fun k => (k : Int) - (windowDays : Int)

/-- `src/background.js` lines 418-428: `getDatePatternsForWindow(date, windowDays)` —
a JS `Set` accumulates each offset date's patterns in insertion order. -/
def getDatePatternsForWindow (date : DateT) (windowDays : Nat) : List Str :=
  (windowOffsets windowDays).foldl
    (fun acc off =>
      (getDatePatterns (shiftDays date off)).foldl
        (fun a p => if memb p a then a else a ++ [p])
        acc)
    []

/-- Order-preserving deduplication (spec-side companion for comparing the
windowed generator against the union of the per-date pattern lists). -/
def dedupKeepFirst (l : List Str) : List Str :=
  l.foldl (fun a p => if memb p a then a else a ++ [p]) []

/-- `src/background.js` lines 280-288: the `dayPatterns` table; out-of-range
day numbers give `[]`, as `dayPatterns[today] || []` does. -/
def dayPatternsFor : Nat → List Str
  | 0 => (["sunday", "sunnuntai", "söndag", "sonntag", "su", "sun"]).map String.toList
  | 1 => (["monday", "maanantai", "måndag", "montag", "ma", "mon"]).map String.toList
  | 2 => (["tuesday", "tiistai", "tisdag", "dienstag", "ti", "tue"]).map String.toList
  | 3 => (["wednesday", "keskiviikko", "onsdag", "mittwoch", "ke", "wed"]).map String.toList
  | 4 => (["thursday", "torstai", "torsdag", "donnerstag", "to", "thu"]).map String.toList
  | 5 => (["friday", "perjantai", "fredag", "freitag", "pe", "fri"]).map String.toList
  | 6 => (["saturday", "lauantai", "lördag", "samstag", "la", "sat"]).map String.toList
  | _ => []

/-- `Object.values(dayPatterns).flat()` (keys iterate `0..6` in order). -/
def allDayPatterns : List Str :=
  (List.range 7).foldr (fun d acc => dayPatternsFor d ++ acc) []

/-- `src/background.js` lines 477-484: `lineHasDayPattern(line, pattern)` —
word-bounded regex `\b<pat>\.?\b` for patterns of length ≤ 3, plain
substring containment otherwise. -/
def lineHasDayPattern (line pattern : Str) : Bool :=
  if pattern.length ≤ 3 then
    anyIndexUpTo (fun i => matchShortAt pattern line i) line.length
  else containsSub line pattern

/-- Strategy 1 scan (`src/background.js` lines 300-308): index of the first
line containing one of today's patterns and neither "tomorrow" nor "next". -/
def findTodayHeaderIndex (lines : List Str) (todayPatterns : List Str) : Option Nat :=
  go lines
where
  go : List Str → Option Nat
    | [] => none
    | l :: rest =>
      let lowerLine := lowerL l
      if todayPatterns.any (fun pattern =>
          lineHasDayPattern lowerLine pattern &&
            !(containsSub lowerLine ("tomorrow".toList)) &&
            !(containsSub lowerLine ("next".toList))) then
        some 0
      else (go rest).map (· + 1)

/-- `src/background.js` lines 532-553: `extractSectionFromLineIndex` — the
header line plus up to 30 following lines, stopping at the first line that
matches some other day's pattern without matching today's. -/
def extractSectionFromLineIndex
    (lines : List Str) (startIndex : Nat) (todayPatterns allPats : List Str) : Str :=
  let rest :=
    ((lines.drop (startIndex + 1)).take 30).takeWhile fun l =>
      let nextLine := lowerL l
      !(allPats.any fun pattern =>
          lineHasDayPattern nextLine pattern &&
            !(todayPatterns.any fun tp => lineHasDayPattern nextLine tp))
  joinLines (lines.getD startIndex [] :: rest)

/-- Strategy 2 loop (`src/background.js` lines 339-341): the first pattern
in list order that occurs in the lowercased text, with the index of its
first occurrence. -/
def findFirstDatePattern (text : Str) : List Str → Option (Str × Nat)
  | [] => none
  | p :: rest =>
    match indexOfSub (lowerL text) (lowerL p) with
    | some i => some (p, i)
    | none => findFirstDatePattern text rest

/-- JS `text.substring(start, stop)` for `start ≤ stop`. -/
def substrRange (text : Str) (start stop : Nat) : Str := (text.take stop).drop start

/-- Strategy 2 (`src/background.js` lines 339-352): on a date-pattern hit,
the window from 50 characters before to 800 characters after it. -/
def tryDateMatch (text : Str) (datePats : List Str) : Option Str :=
  match findFirstDatePattern text datePats with
  | some (_, i) => some (substrRange text (i - 50) (min text.length (i + 800)))
  | none => none

/-- Result record of `findSingleDayHeader`. -/
structure DayHeaderInfo where
  dayIndex : Nat
  lineIndex : Nat
deriving DecidableEq

/-- Inner loop of `findSingleDayHeader` over `Object.entries(dayPatterns)`
(day indices `0..6` in order) for one lowercased line: grow the set of
found days, remember the first hit. -/
def fshStep (line : Str) (i : Nat) (acc : List Nat × Option DayHeaderInfo) :
    List Nat × Option DayHeaderInfo :=
  (List.range 7).foldl
    (fun acc d =>
      if (dayPatternsFor d).any (fun pattern => lineHasDayPattern line pattern) then
        ((if acc.1.contains d then acc.1 else acc.1 ++ [d]),
         match acc.2 with
         | some x => some x
         | none => some ⟨d, i⟩)
      else acc)
    acc

/-- Outer loop of `findSingleDayHeader` over the lines, tracking the index. -/
def fshAux : List Str → Nat → List Nat × Option DayHeaderInfo →
    List Nat × Option DayHeaderInfo
  | [], _, acc => acc
  | l :: rest, i, acc => fshAux rest (i + 1) (fshStep (lowerL l) i acc)

/-- `src/background.js` lines 505-530: `findSingleDayHeader(lines, dayPatterns)` —
succeeds iff exactly one distinct day is mentioned across all lines. -/
def findSingleDayHeader (lines : List Str) : Option DayHeaderInfo :=
  let r := fshAux lines 0 ([], none)
  if r.1.length = 1 then r.2 else none

/-- `src/background.js` lines 486-503: `findDayPatternIndex(text, patterns)` —
earliest match index over the patterns' word-bounded regexes
(`\b<pat>\.?\b` for length ≤ 3, `\b<pat>\b` otherwise). -/
def findDayPatternIndex (text : Str) (patterns : List Str) : Option Nat :=
  patterns.foldl
    (fun earliest p =>
      let m := firstMatchIdx
        (fun i =>
          if p.length ≤ 3 then matchShortAt p text i else matchLongAt p text i)
        (text.length + 1) 0
      match m, earliest with
      | some i, none => some i
      | some i, some e => if i < e then some i else some e
      | none, e => e)
    none

/-- `SectionResult` of the today-section locator. -/
structure SectionResult where
  success : Bool
  text : Str
  method : String
deriving DecidableEq

/-- `src/background.js` lines 276-391: `extractTodaySection(text)` with the
ambient `new Date()` passed in as `day`.  Strategies in priority order:
day-header, date-match (±1-day window), single-day-header, day-inline;
on failure the full input is returned with method `unknown`. -/
def extractTodaySection (text : Str) (day : DayIdentity) : SectionResult :=
  let todayPatterns := dayPatternsFor day.dayOfWeek
  let lines := (splitOnChar '\n' text).map trimL
  match findTodayHeaderIndex lines todayPatterns with
  | some i =>
    ⟨true, extractSectionFromLineIndex lines i todayPatterns allDayPatterns, "day-header"⟩
  | none =>
    match tryDateMatch text (getDatePatternsForWindow day.date 1) with
    | some sec => ⟨true, sec, "date-match"⟩
    | none =>
      match findSingleDayHeader lines with
      | some info =>
        ⟨true,
         extractSectionFromLineIndex lines info.lineIndex (dayPatternsFor info.dayIndex)
           allDayPatterns,
         "single-day-header"⟩
      | none =>
        match findDayPatternIndex (lowerL text) todayPatterns with
        | some idx =>
          ⟨true, substrRange text (idx - 50) (min text.length (idx + 800)), "day-inline"⟩
        | none => ⟨false, text, "unknown"⟩

/-- Confidence part of the orchestrator result. -/
structure Confidence where
  dayDetection : String
  method : String
deriving DecidableEq

/-- `KeywordMatchResult` of the detection orchestrator. -/
structure KeywordMatchResult where
  fishItems : List Str
  confidence : Confidence
deriving DecidableEq

/-- `src/background.js` lines 157-205: `findFishInText`, generalized over
the keyword tables the scanner reads. -/
def findFishInTextWith (kws en fi : List Str) (textContent : Str) (day : DayIdentity) :
    KeywordMatchResult :=
  let todaySection := extractTodaySection textContent day
  if todaySection.success then
    let fishItems := searchForFishWith kws en fi todaySection.text
    if 0 < fishItems.length then ⟨fishItems, ⟨"high", todaySection.method⟩⟩
    else
      let fallbackItems := searchForFishWith kws en fi textContent
      if 0 < fallbackItems.length then ⟨fallbackItems, ⟨"low", "full-page-fallback"⟩⟩
      else ⟨[], ⟨"high", todaySection.method⟩⟩
  else ⟨searchForFishWith kws en fi textContent, ⟨"low", "full-page"⟩⟩

/-- The detection orchestrator with the repository's keyword tables. -/
def findFishInText (textContent : Str) (day : DayIdentity) : KeywordMatchResult :=
  findFishInTextWith FISH_KEYWORDS ENGLISH_FISH_KEYWORDS FINNISH_FISH_KEYWORDS
    textContent day

/-- Concrete page: today's (Friday's) header exists but its section and the
whole page contain no fish keyword. -/
def fridayClosedText : Str := "Friday\nClosed today".toList

/-- Concrete page with five weekday sections; only Tuesday's has fish. -/
def fiveDayMenuText : Str :=
  "Monday\nBeef stew\nTuesday\nGrilled salmon\nWednesday\nChicken\nThursday\nPasta\nFriday\nVegetable soup".toList

/-- Concrete page mentioning exactly one weekday. -/
def wedText : Str := "Wednesday: Fish Soup".toList

/-- Concrete page containing only tomorrow's date (relative to 2024-02-04). -/
def tomorrowDateText : Str := "Menu 05.02.2024 herkkuja".toList

/-- Reference date 2024-02-04 (a Sunday by the calendar, used as an
arbitrary `dayIdentity.date`). -/
def feb4 : DateT := ⟨2024, 2, 4⟩

/-- Day identity with `dayOfWeek = 5` (Friday) and date 2024-02-04. -/
def day5feb4 : DayIdentity := ⟨5, feb4⟩

/-! ### Helper lemmas about the string primitives -/

theorem mem_of_leadsWith : ∀ {n h : Str}, leadsWith n h = true → ∀ c ∈ n, c ∈ h := by
  intro n
  induction n with
  | nil => intro h _ c hc; simp at hc
  | cons a as ih =>
    intro h hl c hc
    cases h with
    | nil => simp [leadsWith] at hl
    | cons b bs =>
      unfold leadsWith at hl
      split at hl
      · rcases List.mem_cons.mp hc with rfl | hc'
        · simp_all
        · exact List.mem_cons_of_mem _ (ih hl c hc')
      · simp at hl

theorem mem_of_indexOfSubAux :
    ∀ {hay : Str} {needle : Str} {i : Nat},
      indexOfSubAux needle hay = some i → ∀ c ∈ needle, c ∈ hay := by
  intro hay
  induction hay with
  | nil =>
    intro needle i h c hc
    unfold indexOfSubAux at h
    split at h
    · simp_all
    · simp at h
  | cons b bs ih =>
    intro needle i h c hc
    unfold indexOfSubAux at h
    split at h
    · exact mem_of_leadsWith (by assumption) c hc
    · obtain ⟨j, hj, -⟩ := Option.map_eq_some'.mp h
      exact List.mem_cons_of_mem _ (ih hj c hc)

theorem mem_of_containsSub {hay needle : Str} (h : containsSub hay needle = true) :
    ∀ c ∈ needle, c ∈ hay := by
  unfold containsSub indexOfSub at h
  obtain ⟨i, hi⟩ := Option.isSome_iff_exists.mp h
  exact mem_of_indexOfSubAux hi

theorem memb_eq_true_iff {x : Str} {l : List Str} : memb x l = true ↔ x ∈ l := by
  simp [memb]

/-! ### Date patterns always contain a digit -/

theorem digitChar_isDigit (r : Nat) : (digitChar r).isDigit = true := by
  unfold digitChar
  split <;> decide

theorem natStrGo_suffix : ∀ (fuel n : Nat) (acc : Str), acc <:+ natStrGo fuel n acc := by
  intro fuel
  induction fuel with
  | zero => intro n acc; exact List.suffix_refl acc
  | succ fuel ih =>
    intro n acc
    unfold natStrGo
    split
    · exact List.suffix_refl acc
    · exact (List.suffix_cons _ _).trans (ih (n / 10) _)

theorem natStr_has_digit (n : Nat) : ∃ c ∈ natStr n, c.isDigit = true := by
  unfold natStr
  split
  · exact ⟨'0', by simp, by decide⟩
  · cases n with
    | zero => simp_all
    | succ m =>
      refine ⟨digitChar ((m + 1) % 10), ?_, digitChar_isDigit _⟩
      have h1 : natStrGo (m + 1) (m + 1) [] =
          natStrGo m ((m + 1) / 10) [digitChar ((m + 1) % 10)] := by
        conv_lhs => rw [natStrGo.eq_def]
        simp
      rw [h1]
      exact (natStrGo_suffix m ((m + 1) / 10) _).subset (by simp)

theorem pad2_has_digit (n : Nat) : ∃ c ∈ pad2 n, c.isDigit = true := by
  simp only [pad2]
  split
  · exact ⟨'0', by simp, by decide⟩
  · exact natStr_has_digit n

theorem getDatePatterns_has_digit (date : DateT) :
    ∀ p ∈ getDatePatterns date, ∃ c ∈ p, c.isDigit = true := by
  intro p hp
  unfold getDatePatterns at hp
  simp only [List.mem_cons, List.not_mem_nil, or_false] at hp
  rcases hp with rfl | rfl | rfl | rfl | rfl | rfl | rfl | rfl | rfl | rfl | rfl
  · obtain ⟨c, hc, hd⟩ := natStr_has_digit date.year
    exact ⟨c, by simp [hc], hd⟩
  · obtain ⟨c, hc, hd⟩ := pad2_has_digit date.day
    exact ⟨c, by simp [hc], hd⟩
  · obtain ⟨c, hc, hd⟩ := natStr_has_digit date.day
    exact ⟨c, by simp [hc], hd⟩
  · obtain ⟨c, hc, hd⟩ := pad2_has_digit date.day
    exact ⟨c, by simp [hc], hd⟩
  · obtain ⟨c, hc, hd⟩ := natStr_has_digit date.day
    exact ⟨c, by simp [hc], hd⟩
  · obtain ⟨c, hc, hd⟩ := pad2_has_digit date.day
    exact ⟨c, by simp [hc], hd⟩
  · obtain ⟨c, hc, hd⟩ := natStr_has_digit date.day
    exact ⟨c, by simp [hc], hd⟩
  · obtain ⟨c, hc, hd⟩ := pad2_has_digit date.day
    exact ⟨c, by simp [hc], hd⟩
  · obtain ⟨c, hc, hd⟩ := natStr_has_digit date.day
    exact ⟨c, by simp [hc], hd⟩
  · obtain ⟨c, hc, hd⟩ := pad2_has_digit date.day
    exact ⟨c, by simp [hc], hd⟩
  · obtain ⟨c, hc, hd⟩ := natStr_has_digit date.day
    exact ⟨c, by simp [hc], hd⟩

theorem jsToLower_isDigit_false {c : Char} (h : c.isDigit = false) :
    (jsToLower c).isDigit = false := by
  unfold jsToLower
  split <;> first | decide | exact h

theorem jsToLower_of_isDigit {c : Char} (h : c.isDigit = true) : jsToLower c = c := by
  unfold jsToLower
  split <;> first | rfl | exact absurd h (by decide)

theorem lowerL_digitFree {text : Str} (h : ∀ c ∈ text, c.isDigit = false) :
    ∀ c ∈ lowerL text, c.isDigit = false := by
  intro c hc
  obtain ⟨a, ha, rfl⟩ := List.mem_map.mp hc
  exact jsToLower_isDigit_false (h a ha)

theorem lowerL_mem_of_digit {p : Str} {c : Char} (hc : c ∈ p) (hd : c.isDigit = true) :
    c ∈ lowerL p := by
  exact List.mem_map.mpr ⟨c, hc, jsToLower_of_isDigit hd⟩

theorem findFirstDatePattern_eq_none {text : Str} :
    ∀ (pats : List Str), (∀ p ∈ pats, ∃ c ∈ p, c.isDigit = true) →
      (∀ c ∈ text, c.isDigit = false) → findFirstDatePattern text pats = none
  | [], _, _ => rfl
  | p :: rest, hp, ht => by
    unfold findFirstDatePattern
    have hnone : indexOfSub (lowerL text) (lowerL p) = none := by
      obtain ⟨c, hc, hd⟩ := hp p (by simp)
      cases hio : indexOfSub (lowerL text) (lowerL p) with
      | none => rfl
      | some i =>
        have hmem := mem_of_indexOfSubAux hio c (lowerL_mem_of_digit hc hd)
        have := lowerL_digitFree ht c hmem
        simp_all
    rw [hnone]
    exact findFirstDatePattern_eq_none rest (fun q hq => hp q (List.mem_cons_of_mem _ hq)) ht

theorem tryDateMatch_eq_none {text : Str} {pats : List Str}
    (hpats : ∀ p ∈ pats, ∃ c ∈ p, c.isDigit = true)
    (htext : ∀ c ∈ text, c.isDigit = false) :
    tryDateMatch text pats = none := by
  unfold tryDateMatch
  rw [findFirstDatePattern_eq_none pats hpats htext]

/-! ### Membership in the windowed pattern set -/

theorem mem_foldl_insert :
    ∀ (l : List Str) (acc : List Str) (p : Str),
      p ∈ l.foldl (fun a q => if memb q a then a else a ++ [q]) acc →
      p ∈ acc ∨ p ∈ l := by
  intro l
  induction l with
  | nil => intro acc p h; exact Or.inl h
  | cons q rest ih =>
    intro acc p h
    simp only [List.foldl_cons] at h
    rcases ih _ p h with hacc | hrest
    · by_cases hm : memb q acc = true
      · rw [if_pos hm] at hacc
        exact Or.inl hacc
      · rw [if_neg hm] at hacc
        rcases List.mem_append.mp hacc with h1 | h1
        · exact Or.inl h1
        · simp at h1
          subst h1
          exact Or.inr (by simp)
    · exact Or.inr (List.mem_cons_of_mem _ hrest)

theorem mem_window_foldl :
    ∀ (offs : List Int) (date : DateT) (acc : List Str) (p : Str),
      p ∈ offs.foldl
          (fun acc off =>
            (getDatePatterns (shiftDays date off)).foldl
              (fun a q => if memb q a then a else a ++ [q]) acc)
          acc →
      p ∈ acc ∨ ∃ off ∈ offs, p ∈ getDatePatterns (shiftDays date off) := by
  intro offs
  induction offs with
  | nil => intro date acc p h; exact Or.inl h
  | cons off rest ih =>
    intro date acc p h
    simp only [List.foldl_cons] at h
    rcases ih date _ p h with hacc | ⟨o, ho, hp⟩
    · rcases mem_foldl_insert _ _ _ hacc with h1 | h1
      · exact Or.inl h1
      · exact Or.inr ⟨off, by simp, h1⟩
    · exact Or.inr ⟨o, List.mem_cons_of_mem _ ho, hp⟩

theorem getDatePatternsForWindow_has_digit (date : DateT) (w : Nat) :
    ∀ p ∈ getDatePatternsForWindow date w, ∃ c ∈ p, c.isDigit = true := by
  intro p hp
  unfold getDatePatternsForWindow at hp
  rcases mem_window_foldl _ date [] p hp with h | ⟨off, -, hmem⟩
  · simp at h
  · exact getDatePatterns_has_digit _ p hmem

theorem findFirstDatePattern_spec {text : Str} :
    ∀ {pats : List Str} {p : Str} {i : Nat},
      findFirstDatePattern text pats = some (p, i) →
      p ∈ pats ∧ indexOfSub (lowerL text) (lowerL p) = some i := by
  intro pats
  induction pats with
  | nil => intro p i h; simp [findFirstDatePattern] at h
  | cons q rest ih =>
    intro p i h
    unfold findFirstDatePattern at h
    cases hio : indexOfSub (lowerL text) (lowerL q) with
    | none =>
      rw [hio] at h
      obtain ⟨hmem, hidx⟩ := ih h
      exact ⟨List.mem_cons_of_mem _ hmem, hidx⟩
    | some j =>
      rw [hio] at h
      have h1 : q = p ∧ j = i := by
        have := Option.some.inj h
        exact ⟨congrArg Prod.fst this, congrArg Prod.snd this⟩
      obtain ⟨rfl, rfl⟩ := h1
      exact ⟨by simp, hio⟩

/-! ### Claim theorems -/

/-- C8: date-pattern generation for 2024-02-04 includes `2024-02-04`,
`04.02.2024` and `4.2.2024`, and the `windowDays = 1` windowed generation
around 2024-02-04 equals the order-preserving deduplicated union of the
per-date patterns over 2024-02-03 .. 2024-02-05, in particular containing
date strings for 2024-02-03 and 2024-02-05. -/
theorem c8_date_pattern_generation :
    "2024-02-04".toList ∈ getDatePatterns ⟨2024, 2, 4⟩ ∧
    "04.02.2024".toList ∈ getDatePatterns ⟨2024, 2, 4⟩ ∧
    "4.2.2024".toList ∈ getDatePatterns ⟨2024, 2, 4⟩ ∧
    getDatePatternsForWindow ⟨2024, 2, 4⟩ 1 =
      dedupKeepFirst
        (getDatePatterns ⟨2024, 2, 3⟩ ++ getDatePatterns ⟨2024, 2, 4⟩ ++
          getDatePatterns ⟨2024, 2, 5⟩) ∧
    "2024-02-03".toList ∈ getDatePatternsForWindow ⟨2024, 2, 4⟩ 1 ∧
    "03.02.2024".toList ∈ getDatePatternsForWindow ⟨2024, 2, 4⟩ 1 ∧
    "2024-02-05".toList ∈ getDatePatternsForWindow ⟨2024, 2, 4⟩ 1 ∧
    "05.02.2024".toList ∈ getDatePatternsForWindow ⟨2024, 2, 4⟩ 1 := by
  decide

/-- C9: the detection pipeline is a pure function of
`(fullText, dayIdentity, keywordSet)`: running it twice on identical
inputs yields identical results (in this embedding the ambient clock of
the source is part of `dayIdentity`, and no other state exists). -/
theorem c9_detect_deterministic (kws en fi : List Str) (text : Str) (day : DayIdentity) :
    findFishInTextWith kws en fi text day = findFishInTextWith kws en fi text day := rfl

/-- C9 witness at concrete input. -/
theorem c9_detect_deterministic_witness :
    findFishInTextWith FISH_KEYWORDS ENGLISH_FISH_KEYWORDS FINNISH_FISH_KEYWORDS
        fridayClosedText day5feb4 =
      findFishInTextWith FISH_KEYWORDS ENGLISH_FISH_KEYWORDS FINNISH_FISH_KEYWORDS
        fridayClosedText day5feb4 :=
  c9_detect_deterministic FISH_KEYWORDS ENGLISH_FISH_KEYWORDS FINNISH_FISH_KEYWORDS
    fridayClosedText day5feb4

/-- C5: whenever the locator fails, it reports method `unknown` and
returns the full input text unchanged. -/
theorem c5_failure_preserves_input (text : Str) (day : DayIdentity)
    (h : (extractTodaySection text day).success = false) :
    (extractTodaySection text day).method = "unknown" ∧
      (extractTodaySection text day).text = text := by
  have key : ∀ r : SectionResult, extractTodaySection text day = r →
      r.success = false → r.method = "unknown" ∧ r.text = text := by
    intro r hr hs
    simp only [extractTodaySection] at hr
    repeat' split at hr
    all_goals subst hr
    all_goals first
      | exact Bool.noConfusion hs
      | exact ⟨rfl, rfl⟩
  exact key _ rfl h

/-- C5 witness: the locator fails on the empty page. -/
theorem c5_failure_preserves_input_witness :
    (extractTodaySection [] day5feb4).success = false ∧
    ((extractTodaySection [] day5feb4).method = "unknown" ∧
      (extractTodaySection [] day5feb4).text = []) :=
  ⟨by decide, c5_failure_preserves_input [] day5feb4 (by decide)⟩

/-- C1 counterexample: on `fridayClosedText` with Friday as today the
locator succeeds, the located section yields no scanner match, yet the
orchestrator reports `dayDetection = "high"` — the claim demands `"low"`
whenever the section scan is empty. -/
theorem c1_counterexample :
    (extractTodaySection fridayClosedText day5feb4).success = true ∧
    searchForFish (extractTodaySection fridayClosedText day5feb4).text = [] ∧
    (findFishInText fridayClosedText day5feb4).confidence.dayDetection = "high" ∧
    ¬((findFishInText fridayClosedText day5feb4).confidence.dayDetection = "low") := by
  decide

/-- C1 (amended): `dayDetection = "high"` iff the locator succeeded AND
(the scan of the located section produced at least one match OR the
full-page fallback scan also produced none — the "no dishes today"
outcome keeps high confidence). -/
theorem c1_high_confidence_characterization (text : Str) (day : DayIdentity) :
    (findFishInText text day).confidence.dayDetection = "high" ↔
      ((extractTodaySection text day).success = true ∧
        (searchForFish (extractTodaySection text day).text ≠ [] ∨
          searchForFish text = [])) := by
  simp only [findFishInText, findFishInTextWith, searchForFish]
  by_cases hsucc : (extractTodaySection text day).success = true
  · rw [if_pos hsucc]
    by_cases h1 : 0 < (searchForFishWith FISH_KEYWORDS ENGLISH_FISH_KEYWORDS
        FINNISH_FISH_KEYWORDS (extractTodaySection text day).text).length
    · rw [if_pos h1]
      exact iff_of_true rfl ⟨hsucc, Or.inl (List.length_pos.mp h1)⟩
    · rw [if_neg h1]
      by_cases h2 : 0 < (searchForFishWith FISH_KEYWORDS ENGLISH_FISH_KEYWORDS
          FINNISH_FISH_KEYWORDS text).length
      · rw [if_pos h2]
        apply iff_of_false
        · intro hcontra
          exact absurd (show ("low" : String) = "high" from hcontra) (by decide)
        · rintro ⟨-, hor | hor⟩
          · exact hor (List.eq_nil_of_length_eq_zero (Nat.eq_zero_of_not_pos h1))
          · exact (List.length_pos.mp h2) hor
      · rw [if_neg h2]
        exact iff_of_true rfl
          ⟨hsucc, Or.inr (List.eq_nil_of_length_eq_zero (Nat.eq_zero_of_not_pos h2))⟩
  · rw [if_neg hsucc]
    apply iff_of_false
    · intro hcontra
      exact absurd (show ("low" : String) = "high" from hcontra) (by decide)
    · rintro ⟨hcontra, -⟩
      exact hsucc hcontra

/-- C1 witness at concrete input. -/
theorem c1_high_confidence_characterization_witness :
    (findFishInText fridayClosedText day5feb4).confidence.dayDetection = "high" ↔
      ((extractTodaySection fridayClosedText day5feb4).success = true ∧
        (searchForFish (extractTodaySection fridayClosedText day5feb4).text ≠ [] ∨
          searchForFish fridayClosedText = [])) :=
  c1_high_confidence_characterization fridayClosedText day5feb4

/-- C2 counterexample: on the five-weekday page with fishless Friday and
fishy Tuesday, `detect` does NOT return `fishItems = []`: the full-page
fallback reports Tuesday's salmon line. -/
theorem c2_counterexample :
    (findFishInText fiveDayMenuText day5feb4).fishItems ≠ [] ∧
    (findFishInText fiveDayMenuText day5feb4).fishItems = ["Grilled salmon".toList] := by
  decide

/-- C2 (amended): on such a page the locator does find Friday's section
(`day-header`) and that section scans empty, but the orchestrator then
falls back to the full page, returning Tuesday's fish line flagged with
`dayDetection = "low"` and method `full-page-fallback` instead of an
empty result. -/
theorem c2_fallback_result :
    (extractTodaySection fiveDayMenuText day5feb4).method = "day-header" ∧
    searchForFish (extractTodaySection fiveDayMenuText day5feb4).text = [] ∧
    findFishInText fiveDayMenuText day5feb4 =
      ⟨["Grilled salmon".toList], ⟨"low", "full-page-fallback"⟩⟩ := by
  decide

/-- C4 counterexample: with today = 2024-02-04 (`dayOfWeek = 0`), a page
whose only date string is tomorrow's `05.02.2024` still triggers the
`date-match` strategy — so strategy 2 does not search today's exact date
only; none of today's own eleven date patterns occurs in the text. -/
theorem c4_counterexample :
    extractTodaySection tomorrowDateText ⟨0, feb4⟩ =
      ⟨true, tomorrowDateText, "date-match"⟩ ∧
    (getDatePatterns feb4).all
        (fun p => !(containsSub (lowerL tomorrowDateText) (lowerL p))) = true := by
  decide

/-- C4 (amended): when strategy 1 found no day header, strategy 2 searches
the date patterns of the ±1-day window `getDatePatternsForWindow date 1`
(not just today's exact date); the first pattern in window order that
occurs (case-insensitively) yields the window from 50 characters before
to 800 characters after its first occurrence, with method `date-match`. -/
theorem c4_date_match_window (text : Str) (day : DayIdentity) (p : Str) (i : Nat)
    (h1 : findTodayHeaderIndex ((splitOnChar '\n' text).map trimL)
        (dayPatternsFor day.dayOfWeek) = none)
    (h2 : findFirstDatePattern text (getDatePatternsForWindow day.date 1) = some (p, i)) :
    p ∈ getDatePatternsForWindow day.date 1 ∧
    indexOfSub (lowerL text) (lowerL p) = some i ∧
    extractTodaySection text day =
      ⟨true, substrRange text (i - 50) (min text.length (i + 800)), "date-match"⟩ := by
  obtain ⟨hmem, hidx⟩ := findFirstDatePattern_spec h2
  refine ⟨hmem, hidx, ?_⟩
  have hdm : tryDateMatch text (getDatePatternsForWindow day.date 1) =
      some (substrRange text (i - 50) (min text.length (i + 800))) := by
    unfold tryDateMatch
    rw [h2]
  simp only [extractTodaySection, h1, hdm]

/-- C4 witness at concrete input. -/
theorem c4_date_match_window_witness :
    "05.02.2024".toList ∈ getDatePatternsForWindow feb4 1 ∧
    indexOfSub (lowerL tomorrowDateText) (lowerL ("05.02.2024".toList)) = some 5 ∧
    extractTodaySection tomorrowDateText ⟨0, feb4⟩ =
      ⟨true, substrRange tomorrowDateText (5 - 50) (min tomorrowDateText.length (5 + 800)),
       "date-match"⟩ :=
  c4_date_match_window tomorrowDateText ⟨0, feb4⟩ ("05.02.2024".toList) 5
    (by decide) (by decide)

/-- C10 counterexample: `Smoothie 5 ja kalakeitto` is NOT classified as
noise — `smoothie` does not contain any Finnish street token as a
substring (in particular not `tie`) — and the scanner therefore DOES
return the line. -/
theorem c10_counterexample :
    isAddressLikeLine ("Smoothie 5 ja kalakeitto".toList) = false ∧
    containsSub (lowerL ("Smoothie 5 ja kalakeitto".toList)) ("tie".toList) = false ∧
    searchForFish ("Smoothie 5 ja kalakeitto".toList) =
      ["Smoothie 5 ja kalakeitto".toList] := by
  decide

/-- C10 (amended): the Finnish street-token check is an unanchored
substring test, so any line whose lowercase form contains `tie` anywhere
— including inside an unrelated word such as `sortie` — together with a
standalone 1-4-digit token is classified as noise, and such a line is
excluded from the scan result even though it contains the fish keyword
`kala`; `Smoothie`, however, contains no street token, so the claim's
sample line is kept. -/
theorem c10_substring_street_check :
    (∀ line : Str, containsSub (lowerL line) ("tie".toList) = true →
      hasNumberTok (lowerL line) = true → isAddressLikeLine line = true) ∧
    isAddressLikeLine ("Sortie 5 ja kalakeitto".toList) = true ∧
    searchForFish ("Sortie 5 ja kalakeitto".toList) = [] := by
  refine ⟨?_, by decide, by decide⟩
  intro line h1 h2
  unfold isAddressLikeLine
  have hf : finnishStreetToks.any (fun t => containsSub (lowerL line) t) = true :=
    List.any_eq_true.mpr ⟨"tie".toList, by decide, h1⟩
  simp [hf, h2]

/-- C10 witness: the unanchored-substring fact applied at a concrete line. -/
theorem c10_substring_street_check_witness :
    isAddressLikeLine ("sortie 12".toList) = true :=
  c10_substring_street_check.1 ("sortie 12".toList) (by decide) (by decide)

/-- C3 counterexample: on the single-day page `Wednesday: Fish Soup` with
`dayOfWeek = 3` (the mentioned day IS today), the higher-priority
day-header strategy fires first, so the method is `day-header`, not
`single-day-header` as the claim requires for every `dayOfWeek`. -/
theorem c3_counterexample :
    extractTodaySection wedText ⟨3, feb4⟩ = ⟨true, wedText, "day-header"⟩ ∧
    ¬((extractTodaySection wedText ⟨3, feb4⟩).method = "single-day-header") := by
  decide

/-- C3 (amended): on the single-day page `Wednesday: Fish Soup` (which
contains no digits, so no date pattern can fire) the `single-day-header`
strategy fires and returns that section for every `dayOfWeek` in `[0..6]`
other than 3 and every calendar date; for `dayOfWeek = 3` the
day-header strategy takes priority instead. -/
theorem c3_single_day_header (d : Nat) (date : DateT) (h1 : d ≤ 6) (h2 : d ≠ 3) :
    extractTodaySection wedText ⟨d, date⟩ = ⟨true, wedText, "single-day-header"⟩ := by
  have hA : findTodayHeaderIndex ((splitOnChar '\n' wedText).map trimL)
      (dayPatternsFor d) = none := by
    interval_cases d
    · decide
    · decide
    · decide
    · exact absurd rfl h2
    · decide
    · decide
    · decide
  have hB : tryDateMatch wedText (getDatePatternsForWindow date 1) = none :=
    tryDateMatch_eq_none (getDatePatternsForWindow_has_digit date 1) (by decide)
  have hC : findSingleDayHeader ((splitOnChar '\n' wedText).map trimL) =
      some ⟨3, 0⟩ := by decide
  simp only [extractTodaySection, hA, hB, hC]
  decide

/-- C3 witness at concrete input. -/
theorem c3_single_day_header_witness :
    extractTodaySection wedText ⟨5, feb4⟩ = ⟨true, wedText, "single-day-header"⟩ :=
  c3_single_day_header 5 feb4 (by decide) (by decide)

/-! ### Scanner invariants -/

theorem pushItem_spec (en fi : List Str) (lowerLine clean : Str) (st : ScanState) :
    (pushItem en fi lowerLine clean st = st ∧ clean ∈ st.fishItems) ∨
    (clean ∉ st.fishItems ∧
      (pushItem en fi lowerLine clean st).fishItems = st.fishItems ++ [clean] ∧
      ((pushItem en fi lowerLine clean st).englishItems = st.englishItems ∨
        (pushItem en fi lowerLine clean st).englishItems = st.englishItems ++ [clean])) := by
  unfold pushItem
  by_cases h : clean ∈ st.fishItems
  · rw [if_pos (memb_eq_true_iff.mpr h)]
    exact Or.inl ⟨rfl, h⟩
  · rw [if_neg (fun hm => h (memb_eq_true_iff.mp hm))]
    refine Or.inr ⟨h, rfl, ?_⟩
    by_cases hl : detectLineLanguage en fi lowerLine = "en"
    · rw [if_pos hl]
      exact Or.inr rfl
    · rw [if_neg hl]
      exact Or.inl rfl

theorem scanLines_spec (kws en fi : List Str) :
    ∀ (lines : List Str) (st : ScanState),
      st.englishItems.Sublist st.fishItems → st.fishItems.Nodup →
      st.fishItems.length ≤ 4 →
      ((scanLines kws en fi lines st).englishItems.Sublist
          (scanLines kws en fi lines st).fishItems ∧
        (scanLines kws en fi lines st).fishItems.Nodup ∧
        (scanLines kws en fi lines st).fishItems.length ≤ 5 ∧
        ∀ s ∈ (scanLines kws en fi lines st).fishItems,
          s ∈ st.fishItems ∨
            ∃ l ∈ lines, 5 ≤ (trimL l).length ∧ isAddressLikeLine (trimL l) = false ∧
              s = cleanedLine (trimL l)) := by
  intro lines
  induction lines with
  | nil =>
    intro st h1 h2 h3
    simp only [scanLines]
    exact ⟨h1, h2, by omega, fun s hs => Or.inl hs⟩
  | cons line rest ih =>
    intro st h1 h2 h3
    simp only [scanLines]
    by_cases hshort : (trimL line).length < 5
    · rw [if_pos hshort]
      obtain ⟨a, b, c, d⟩ := ih st h1 h2 h3
      exact ⟨a, b, c, fun s hs => (d s hs).imp id
        (fun ⟨l, hl, hp⟩ => ⟨l, List.mem_cons_of_mem _ hl, hp⟩)⟩
    · rw [if_neg hshort]
      by_cases haddr : isAddressLikeLine (trimL line) = true
      · rw [if_pos haddr]
        obtain ⟨a, b, c, d⟩ := ih st h1 h2 h3
        exact ⟨a, b, c, fun s hs => (d s hs).imp id
          (fun ⟨l, hl, hp⟩ => ⟨l, List.mem_cons_of_mem _ hl, hp⟩)⟩
      · rw [if_neg haddr]
        have haddr' : isAddressLikeLine (trimL line) = false := by
          revert haddr
          cases isAddressLikeLine (trimL line) <;> simp
        by_cases hkw : 0 < (matchingKeywords kws (lowerL (trimL line))).length
        · rw [if_pos hkw]
          rcases pushItem_spec en fi (lowerL (trimL line)) (cleanedLine (trimL line)) st with
            ⟨heq, -⟩ | ⟨hnot, hfish, heng⟩
          · rw [heq, if_neg (by omega : ¬ 5 ≤ st.fishItems.length)]
            obtain ⟨a, b, c, d⟩ := ih st h1 h2 h3
            exact ⟨a, b, c, fun s hs => (d s hs).imp id
              (fun ⟨l, hl, hp⟩ => ⟨l, List.mem_cons_of_mem _ hl, hp⟩)⟩
          · have hlen' : (pushItem en fi (lowerL (trimL line)) (cleanedLine (trimL line))
                st).fishItems.length = st.fishItems.length + 1 := by
              rw [hfish]; simp
            have hsub' : (pushItem en fi (lowerL (trimL line)) (cleanedLine (trimL line))
                st).englishItems.Sublist
                (pushItem en fi (lowerL (trimL line)) (cleanedLine (trimL line))
                  st).fishItems := by
              rcases heng with he | he
              · rw [he, hfish]
                exact h1.trans (List.sublist_append_left _ _)
              · rw [he, hfish]
                exact h1.append (List.Sublist.refl _)
            have hnodup' : (pushItem en fi (lowerL (trimL line)) (cleanedLine (trimL line))
                st).fishItems.Nodup := by
              rw [hfish]
              exact List.nodup_append.mpr ⟨h2, List.nodup_singleton _, by simp [hnot]⟩
            have hmem' : ∀ s ∈ (pushItem en fi (lowerL (trimL line)) (cleanedLine (trimL line))
                st).fishItems, s ∈ st.fishItems ∨ s = cleanedLine (trimL line) := by
              intro s hs
              rw [hfish] at hs
              rcases List.mem_append.mp hs with h | h
              · exact Or.inl h
              · exact Or.inr (by simpa using h)
            by_cases h5 : 5 ≤ (pushItem en fi (lowerL (trimL line)) (cleanedLine (trimL line))
                st).fishItems.length
            · rw [if_pos h5]
              refine ⟨hsub', hnodup', by omega, fun s hs => ?_⟩
              rcases hmem' s hs with h | h
              · exact Or.inl h
              · exact Or.inr ⟨line, by simp, by omega, haddr', h⟩
            · rw [if_neg h5]
              obtain ⟨a, b, c, d⟩ := ih _ hsub' hnodup' (by omega)
              refine ⟨a, b, c, fun s hs => ?_⟩
              rcases d s hs with h | ⟨l, hl, hp⟩
              · rcases hmem' s h with h' | h'
                · exact Or.inl h'
                · exact Or.inr ⟨line, by simp, by omega, haddr', h'⟩
              · exact Or.inr ⟨l, List.mem_cons_of_mem _ hl, hp⟩
        · rw [if_neg hkw]
          obtain ⟨a, b, c, d⟩ := ih st h1 h2 h3
          exact ⟨a, b, c, fun s hs => (d s hs).imp id
            (fun ⟨l, hl, hp⟩ => ⟨l, List.mem_cons_of_mem _ hl, hp⟩)⟩

/-- C6: for every keyword table and input text the scanner returns at most
5 pairwise-distinct strings, each of length at most 200, each equal to
some line of the input trimmed, whitespace-collapsed and truncated to 200
characters. -/
theorem c6_scanner_output_shape (kws en fi : List Str) (text : Str) :
    (searchForFishWith kws en fi text).length ≤ 5 ∧
    (searchForFishWith kws en fi text).Nodup ∧
    ∀ s ∈ searchForFishWith kws en fi text,
      s.length ≤ 200 ∧ ∃ l ∈ splitOnChar '\n' text, s = cleanedLine (trimL l) := by
  obtain ⟨a, b, c, d⟩ := scanLines_spec kws en fi (splitOnChar '\n' text) ⟨[], [], []⟩
    (by simp) (by simp) (by simp)
  have hclean : ∀ l : Str, (cleanedLine (trimL l)).length ≤ 200 := by
    intro l
    simp only [cleanedLine, List.length_take]
    omega
  simp only [searchForFishWith]
  by_cases he : 0 <
      (scanLines kws en fi (splitOnChar '\n' text) ⟨[], [], []⟩).englishItems.length
  · rw [if_pos he]
    refine ⟨le_trans a.length_le c, b.sublist a, fun s hs => ?_⟩
    rcases d s (a.subset hs) with h | ⟨l, hl, -, -, hc⟩
    · simp at h
    · exact ⟨hc ▸ hclean l, l, hl, hc⟩
  · rw [if_neg he]
    refine ⟨c, b, fun s hs => ?_⟩
    rcases d s hs with h | ⟨l, hl, -, -, hc⟩
    · simp at h
    · exact ⟨hc ▸ hclean l, l, hl, hc⟩

/-- C6 witness at concrete input. -/
theorem c6_scanner_output_shape_witness :
    (searchForFishWith FISH_KEYWORDS ENGLISH_FISH_KEYWORDS FINNISH_FISH_KEYWORDS
        fiveDayMenuText).length ≤ 5 ∧
    (searchForFishWith FISH_KEYWORDS ENGLISH_FISH_KEYWORDS FINNISH_FISH_KEYWORDS
        fiveDayMenuText).Nodup :=
  ⟨(c6_scanner_output_shape FISH_KEYWORDS ENGLISH_FISH_KEYWORDS FINNISH_FISH_KEYWORDS
      fiveDayMenuText).1,
   (c6_scanner_output_shape FISH_KEYWORDS ENGLISH_FISH_KEYWORDS FINNISH_FISH_KEYWORDS
      fiveDayMenuText).2.1⟩

/-- C7: `Lohikeitto, Mannerheimintie 12` (fish keyword plus address shape)
is classified as noise by the line filter, and every string the scanner
returns is the normalization of some line that is NOT address-like (and
has trimmed length at least 5) — so a noise line is never the source of
any reported fish item, whatever keyword it contains. -/
theorem c7_address_lines_filtered :
    isAddressLikeLine ("Lohikeitto, Mannerheimintie 12".toList) = true ∧
    ∀ (kws en fi : List Str) (text : Str) (s : Str),
      s ∈ searchForFishWith kws en fi text →
      ∃ l ∈ splitOnChar '\n' text,
        isAddressLikeLine (trimL l) = false ∧ 5 ≤ (trimL l).length ∧
          s = cleanedLine (trimL l) := by
  refine ⟨by decide, ?_⟩
  intro kws en fi text s hs
  obtain ⟨a, -, -, d⟩ := scanLines_spec kws en fi (splitOnChar '\n' text) ⟨[], [], []⟩
    (by simp) (by simp) (by simp)
  have hf : s ∈ (scanLines kws en fi (splitOnChar '\n' text) ⟨[], [], []⟩).fishItems := by
    simp only [searchForFishWith] at hs
    by_cases he : 0 <
        (scanLines kws en fi (splitOnChar '\n' text) ⟨[], [], []⟩).englishItems.length
    · rw [if_pos he] at hs
      exact a.subset hs
    · rw [if_neg he] at hs
      exact hs
  rcases d s hf with h | ⟨l, hl, h5, haddr, hc⟩
  · simp at h
  · exact ⟨l, hl, haddr, h5, hc⟩

/-- C7 witness: a clean fish line is traced back to its source line. -/
theorem c7_address_lines_filtered_witness :
    ∃ l ∈ splitOnChar '\n' ("kalakeitto herkullista".toList),
      isAddressLikeLine (trimL l) = false ∧ 5 ≤ (trimL l).length ∧
        ("kalakeitto herkullista".toList) = cleanedLine (trimL l) :=
  c7_address_lines_filtered.2 FISH_KEYWORDS ENGLISH_FISH_KEYWORDS FINNISH_FISH_KEYWORDS
    ("kalakeitto herkullista".toList) ("kalakeitto herkullista".toList) (by decide)
